import Mathlib

/-
Verification development for the kivaloo mux dispatcher
(src/tags/1.1.0/mux/dispatch.c).

The dispatcher is a single-threaded, event-driven state machine: reactor
callbacks (accept completion, packet-read completion, upstream-response
delivery, write completion) run to completion one at a time and mutate the
dispatcher state.  We embed the state shallowly:

  * struct dispatch_state  becomes  DState;
  * struct sock_listen     becomes  one Bool per listener
                          (accept_cookie != NULL, i.e. an armed accept);
  * struct sock_active     becomes  Conn, identified by a model id cid
                          standing for the C pointer; read_cookie != NULL
                          becomes readArmed;
  * struct forwardee       becomes  Fwd, identified by a model id fid; a
                          forwardee is live from the moment
                          wire_requestqueue_add succeeds until it is freed.

External collaborators (network_accept, wire_readpacket,
wire_requestqueue_add, wire_writepacket, netbuf, malloc, mpool) are modelled
by Boolean environment flags deciding whether the call succeeds; each
callback takes the flags for the fallible calls it can make.  C callbacks
return 0 on success and -1 on failure, modelled by an Int paired with the
post state.  The C assert() calls in dropconn and readreq are modelled by
the assertFail flag, which is set when an assert would have fired.

size_t counters are modelled as Nat.  The only decrements in the source are
nsock_active-- in dropconn (guarded by the connection being present in the
list) and nrequests-- in reqdone (guarded by a live forwardee), so no
wraparound can occur along the modelled transitions.
-/

set_option maxHeartbeats 1000000

namespace Mux

/-- Lifecycle phase of an in-flight forwarded request: waiting for the
upstream response, or waiting for the response write back to the client. -/
inductive Phase where
  | upstream
  | writing
  deriving DecidableEq, Repr

/-- In-flight request state (struct forwardee): the originating connection
and the request packet.  fid is a model identifier standing for the C
pointer value of the forwardee. -/
structure Fwd where
  fid : Nat
  connId : Nat
  phase : Phase
  deriving DecidableEq, Repr

/-- Connected client (struct sock_active).  cid is a model identifier
standing for the C pointer; readArmed models read_cookie != NULL; nreq
models the nrequests field. -/
structure Conn where
  cid : Nat
  readArmed : Bool
  nreq : Nat
  deriving DecidableEq, Repr

/-- Dispatcher state (struct dispatch_state together with the listener
array, the active-connection list and the live forwardees). -/
structure DState where
  listen : List Bool
  conns : List Conn
  nActive : Nat
  maxActive : Nat
  failed : Bool
  fwds : List Fwd
  nextCid : Nat
  nextFid : Nat
  assertFail : Bool
  deriving DecidableEq, Repr

/-- Look up a connection by id (first match), modelling a C pointer deref. -/
def findConn : List Conn → Nat → Option Conn
  | [], _ => none
  | c :: cs, cid => if c.cid = cid then some c else findConn cs cid

/-- Unlink a connection (first match) from the list. -/
def eraseConn : List Conn → Nat → List Conn
  | [], _ => []
  | c :: cs, cid => if c.cid = cid then cs else c :: eraseConn cs cid

/-- Set the read_cookie field (armed or not) of the given connection. -/
def setRead : List Conn → Nat → Bool → List Conn
  | [], _, _ => []
  | c :: cs, cid, b =>
    (if c.cid = cid then { c with readArmed := b } else c) :: setRead cs cid b

/-- S->nrequests++ on the given connection. -/
def addReq : List Conn → Nat → List Conn
  | [], _ => []
  | c :: cs, cid =>
    (if c.cid = cid then { c with nreq := c.nreq + 1 } else c) :: addReq cs cid

/-- S->nrequests-- on the given connection. -/
def subReq : List Conn → Nat → List Conn
  | [], _ => []
  | c :: cs, cid =>
    (if c.cid = cid then { c with nreq := c.nreq - 1 } else c) :: subReq cs cid

/-- Look up a forwardee by id (first match). -/
def findFwd : List Fwd → Nat → Option Fwd
  | [], _ => none
  | f :: fs, fid => if f.fid = fid then some f else findFwd fs fid

/-- Remove a forwardee (first match), returning it and the remaining list;
models freeing the forwardee the callback cookie points at. -/
def extractFwd : List Fwd → Nat → Option (Fwd × List Fwd)
  | [], _ => none
  | f :: fs, fid =>
    if f.fid = fid then some (f, fs)
    else
      match extractFwd fs fid with
      | none => none
      | some (g, rest) => some (g, f :: rest)

/-- Move a forwardee (first match) to the writing phase. -/
def setFwdWriting : List Fwd → Nat → List Fwd
  | [], _ => []
  | f :: fs, fid =>
    if f.fid = fid then { f with phase := Phase.writing } :: fs
    else f :: setFwdWriting fs fid

/-- Number of live forwardees whose conn field references the connection. -/
def countFwd : List Fwd → Nat → Nat
  | [], _ => 0
  | f :: fs, cid => (if f.connId = cid then 1 else 0) + countFwd fs cid

/-- accept_stop: cancel any in-progress accepts on all listeners. -/
def accept_stop (d : DState) : DState :=
  { d with listen := d.listen.map fun _ => false }

/-- accept_start: fails with no net state change if some listener already has
an armed accept (the warn0 branch); otherwise arms an accept on every
listener.  ok models every network_accept call succeeding; on failure the
accepts armed during the call are cancelled again (err1: accept_stop), so
the net state change is none. -/
def accept_start (d : DState) (ok : Bool) : DState × Int :=
  if d.listen.any id then (d, -1)
  else if ok then ({ d with listen := d.listen.map fun _ => true }, 0)
  else (d, -1)

/-- dropconn: tear down a connection.  The two asserts are recorded in
assertFail.  The connection is unlinked, nsock_active is decremented, and if
nsock_active was equal to nsock_active_max before the decrement an
accept_start is attempted (aok models its network_accept calls).  dok models
netbuf_write_destroy and close succeeding; their failure changes only the
return value.  At most one accept_start can happen per callback in the
source (nsock_active never increases during a callback that drops
connections), so a single aok flag per callback is exact. -/
def dropconn (d : DState) (cid : Nat) (aok dok : Bool) : DState × Int :=
  match findConn d.conns cid with
  | none => (d, -1)
  | some c =>
    let d1 : DState :=
      { d with
        assertFail := d.assertFail || c.readArmed || !(c.nreq == 0),
        conns := eraseConn d.conns cid }
    let atMax := d1.nActive = d1.maxActive
    let d2 : DState := { d1 with nActive := d1.nActive - 1 }
    if atMax then
      let p := accept_start d2 aok
      (p.1, if p.2 = 0 ∧ dok then 0 else -1)
    else
      (d2, if dok then 0 else -1)

/-- readreq: assert no read is in progress, then arm a packet read.  rrOk
models wire_readpacket succeeding. -/
def readreq (d : DState) (cid : Nat) (rrOk : Bool) : DState × Int :=
  match findConn d.conns cid with
  | none => (d, -1)
  | some c =>
    let d1 : DState := { d with assertFail := d.assertFail || c.readArmed }
    if rrOk then ({ d1 with conns := setRead d1.conns cid true }, 0)
    else (d1, -1)

/-- readreq_cancel: cancel the armed read, clear the cookie, and drop the
connection if it now has no requests in flight. -/
def readreq_cancel (d : DState) (cid : Nat) (aok dok : Bool) : DState × Int :=
  let d1 : DState := { d with conns := setRead d.conns cid false }
  match findConn d1.conns cid with
  | none => (d1, -1)
  | some c =>
    if c.nreq = 0 then dropconn d1 cid aok dok
    else (d1, 0)

/-- reqdone: a request finished; decrement nrequests and drop the connection
if it is now dead (no requests and no armed read). -/
def reqdone (d : DState) (cid : Nat) (aok dok : Bool) : DState × Int :=
  let d1 : DState := { d with conns := subReq d.conns cid }
  match findConn d1.conns cid with
  | none => (d1, -1)
  | some c =>
    if c.nreq = 0 ∧ c.readArmed = false then dropconn d1 cid aok dok
    else (d1, 0)

/-- Environment flags for the fallible calls made by callback_gotconn:
malloc of the sock_active, fcntl, netbuf_write_init, netbuf_read_init,
wire_readpacket inside readreq, and network_accept inside the re-arming
accept_start. -/
structure GotconnEnv where
  mallocOk : Bool
  fcntlOk : Bool
  writeqOk : Bool
  readqOk : Bool
  rrOk : Bool
  aok : Bool
  deriving DecidableEq, Repr

/-- callback_gotconn: an accept completed on listener i.  sOk is false when
the accept delivered s == -1 (only that listener is disarmed and the
callback fails).  On the success path all accepts are stopped, the
connection is built (any construction failure unwinds without linking it),
the first read is armed (the readreq assert passes on the fresh connection),
the connection is linked at the head of the list, nsock_active is
incremented, and accepts are re-armed iff the new count is below the
maximum. -/
def callback_gotconn (d : DState) (i : Nat) (sOk : Bool) (e : GotconnEnv) :
    DState × Int :=
  let d0 : DState := { d with listen := d.listen.set i false }
  if sOk = false then (d0, -1) else
  let d1 := accept_stop d0
  if e.mallocOk = false then (d1, -1) else
  if e.fcntlOk = false then (d1, -1) else
  if e.writeqOk = false then (d1, -1) else
  if e.readqOk = false then (d1, -1) else
  if e.rrOk = false then (d1, -1) else
  let c : Conn := { cid := d1.nextCid, readArmed := true, nreq := 0 }
  let d2 : DState :=
    { d1 with
      conns := c :: d1.conns,
      nextCid := d1.nextCid + 1,
      nActive := d1.nActive + 1 }
  if d2.nActive < d2.maxActive then
    let p := accept_start d2 e.aok
    (p.1, if p.2 = 0 then 0 else -1)
  else (d2, 0)

/-- callback_gotrequest with P == NULL (read failure or EOF): clear the read
cookie and, if no request is in progress, drop the connection. -/
def callback_gotrequest_eof (d : DState) (cid : Nat) (aok dok : Bool) :
    DState × Int :=
  let d1 : DState := { d with conns := setRead d.conns cid false }
  match findConn d1.conns cid with
  | none => (d1, -1)
  | some c =>
    if c.nreq = 0 then
      let p := dropconn d1 cid aok dok
      (p.1, if p.2 = 0 then 0 else -1)
    else (d1, 0)

/-- callback_gotrequest with a packet: clear the read cookie, allocate a
forwardee from the pool (mpoolOk), increment nrequests, hand the request to
the upstream queue (enqOk), and arm the next read (rrOk).  Note the source
increments nrequests before wire_requestqueue_add and does not undo the
increment when the enqueue fails, although it frees the forwardee (err2), so
on that branch the forwardee is not live but the count is. -/
def callback_gotrequest_pkt (d : DState) (cid : Nat)
    (mpoolOk enqOk rrOk : Bool) : DState × Int :=
  let d1 : DState := { d with conns := setRead d.conns cid false }
  if mpoolOk = false then (d1, -1) else
  let d2 : DState := { d1 with conns := addReq d1.conns cid }
  if enqOk = false then (d2, -1) else
  let d3 : DState :=
    { d2 with
      fwds := d2.fwds ++ [{ fid := d2.nextFid, connId := cid,
                            phase := Phase.upstream }],
      nextFid := d2.nextFid + 1 }
  readreq d3 cid rrOk

/-- callback_gotresponse with buf != NULL: rebind the packet buffer and
submit the response write.  On wire_writepacket failure (writeOk false) the
packet and the forwardee are freed and the callback fails, without calling
reqdone. -/
def callback_gotresponse_buf (d : DState) (fid : Nat) (writeOk : Bool) :
    DState × Int :=
  match extractFwd d.fwds fid with
  | none => (d, -1)
  | some fr =>
    if writeOk then ({ d with fwds := setFwdWriting d.fwds fid }, 0)
    else ({ d with fwds := fr.2 }, -1)

/-- The read-cancel sweep in the failure path of callback_gotresponse: walk
the connection list from the failing connection onward via the next
pointers (the ids of that suffix are captured before reqdone runs, matching
the C code, where a connection dropped by reqdone still has its next field
and a NULL read_cookie), cancelling armed reads; a failing cancel aborts the
sweep like the goto err0. -/
def drainLoop (d : DState) (ids : List Nat) (aok dok : Bool) : DState × Int :=
  match ids with
  | [] => (d, 0)
  | cid :: rest =>
    match findConn d.conns cid with
    | none => drainLoop d rest aok dok
    | some c =>
      if c.readArmed then
        let p := readreq_cancel d cid aok dok
        if p.2 = 0 then drainLoop p.1 rest aok dok else (p.1, -1)
      else drainLoop d rest aok dok

/-- callback_gotresponse with buf == NULL (upstream failure): free the
packet and the forwardee, run reqdone on the originating connection, stop
accepting, set the failed flag, and cancel reads on the connections from
the failing one onward in the list. -/
def callback_gotresponse_fail (d : DState) (fid : Nat) (aok dok : Bool) :
    DState × Int :=
  match extractFwd d.fwds fid with
  | none => (d, -1)
  | some fr =>
    let tail := (d.conns.dropWhile fun c => !(c.cid == fr.1.connId)).map Conn.cid
    let d1 : DState := { d with fwds := fr.2 }
    let p := reqdone d1 fr.1.connId aok dok
    if p.2 = 0 then
      let d2 := accept_stop p.1
      let d3 : DState := { d2 with failed := true }
      drainLoop d3 tail aok dok
    else (p.1, -1)

/-- callback_writresponse: free the packet and the forwardee and run
reqdone.  The wfailed argument is ignored by the source ((void)failed). -/
def callback_writresponse (d : DState) (fid : Nat) (wfailed : Bool)
    (aok dok : Bool) : DState × Int :=
  match extractFwd d.fwds fid with
  | none => (d, -1)
  | some fr =>
    reqdone { d with fwds := fr.2 } fr.1.connId aok dok

/-- dispatch_init with nsocks listening sockets and maxconn: the successful
construction, which ends in accept_start arming an accept on every
listener, with no failed check and no comparison against maxconn. -/
def dispatch_init (nsocks maxconn : Nat) : DState :=
  { listen := List.replicate nsocks true, conns := [], nActive := 0,
    maxActive := maxconn, failed := false, fwds := [], nextCid := 0,
    nextFid := 0, assertFail := false }

/-- dispatch_alive: (dstate->failed == 0) || (dstate->nsock_active > 0). -/
def dispatch_alive (d : DState) : Bool :=
  !d.failed || decide (0 < d.nActive)

/-- A reactor event delivered to the dispatcher: which callback fires, with
the environment flags for the fallible external calls it makes. -/
inductive Event where
  | gotconn (i : Nat) (sOk : Bool) (e : GotconnEnv)
  | gotrequestEof (cid : Nat) (aok dok : Bool)
  | gotrequestPkt (cid : Nat) (mpoolOk enqOk rrOk : Bool)
  | gotresponseBuf (fid : Nat) (writeOk : Bool)
  | gotresponseFail (fid : Nat) (aok dok : Bool)
  | writresponse (fid : Nat) (wfailed aok dok : Bool)
  deriving DecidableEq, Repr

/-- The given connection exists and has an armed read. -/
def connReadArmed (d : DState) (cid : Nat) : Bool :=
  match findConn d.conns cid with
  | some c => c.readArmed
  | none => false

/-- The given forwardee is live and awaiting its upstream response. -/
def fwdUpstream (d : DState) (fid : Nat) : Bool :=
  match findFwd d.fwds fid with
  | some f => match f.phase with | Phase.upstream => true | Phase.writing => false
  | none => false

/-- The given forwardee is live and awaiting its write completion. -/
def fwdWriting (d : DState) (fid : Nat) : Bool :=
  match findFwd d.fwds fid with
  | some f => match f.phase with | Phase.upstream => false | Phase.writing => true
  | none => false

/-- Guard: the event can be delivered in the given state.  A callback fires
only for an operation that is currently armed: an accept callback for a
listener with an armed accept, a read callback for a connection with an
armed read, a response callback for a forwardee awaiting its response, a
write callback for a forwardee whose write was submitted. -/
def fires (d : DState) : Event → Bool
  | Event.gotconn i _ _ => d.listen.getD i false
  | Event.gotrequestEof cid _ _ => connReadArmed d cid
  | Event.gotrequestPkt cid _ _ _ => connReadArmed d cid
  | Event.gotresponseBuf fid _ => fwdUpstream d fid
  | Event.gotresponseFail fid _ _ => fwdUpstream d fid
  | Event.writresponse fid _ _ _ => fwdWriting d fid

/-- Run one callback to completion. -/
def exec (d : DState) : Event → DState × Int
  | Event.gotconn i sOk e => callback_gotconn d i sOk e
  | Event.gotrequestEof cid aok dok => callback_gotrequest_eof d cid aok dok
  | Event.gotrequestPkt cid m q r => callback_gotrequest_pkt d cid m q r
  | Event.gotresponseBuf fid w => callback_gotresponse_buf d fid w
  | Event.gotresponseFail fid aok dok => callback_gotresponse_fail d fid aok dok
  | Event.writresponse fid w aok dok => callback_writresponse d fid w aok dok

/-- One quiescent-point transition: some deliverable callback ran, with any
return value. -/
def Step (d d2 : DState) : Prop :=
  ∃ ev, fires d ev = true ∧ (exec d ev).1 = d2

/-- One quiescent-point transition by a callback that returned success;
after a callback returns -1 the reactor is expected to terminate the
process (spec section 7), so these are the transitions of a process that
keeps running. -/
def StepOk (d d2 : DState) : Prop :=
  ∃ ev, fires d ev = true ∧ exec d ev = (d2, 0)

/-- Reachable quiescent states of some dispatcher. -/
def Reachable (d : DState) : Prop :=
  ∃ n m, Relation.ReflTransGen Step (dispatch_init n m) d

/-- Reachable quiescent states along callbacks that all returned success. -/
def ReachableOk (d : DState) : Prop :=
  ∃ n m, Relation.ReflTransGen StepOk (dispatch_init n m) d

/-- A gotconn event on listener i where the accept and every construction
step succeed. -/
def evAcceptOk (i : Nat) : Event :=
  Event.gotconn i true
    { mallocOk := true, fcntlOk := true, writeqOk := true, readqOk := true,
      rrOk := true, aok := true }

/- Concrete trace used for the failed-drain counterexamples: one listener,
at most two connections.  Client 0 connects, pipelines a request, client 1
connects, then the upstream fails the request of client 0. -/

/-- Trace state: freshly initialised dispatcher, 1 listener, maxconn 2. -/
def s0 : DState := dispatch_init 1 2

/-- Trace state: client 0 accepted (conn cid 0). -/
def s1 : DState := (exec s0 (evAcceptOk 0)).1

/-- Trace state: conn 0 delivered a request (forwardee fid 0 enqueued). -/
def s2 : DState := (exec s1 (Event.gotrequestPkt 0 true true true)).1

/-- Trace state: client 1 accepted (conn cid 1, head of the list). -/
def s3 : DState := (exec s2 (evAcceptOk 0)).1

/-- Trace state: the upstream failed the response for forwardee 0; the
dispatcher entered failed-drain state. -/
def s4 : DState := (exec s3 (Event.gotresponseFail 0 true true)).1

/-- Trace state: a third client is accepted after the failed flag is set. -/
def s5 : DState := (exec s4 (evAcceptOk 0)).1

/-- Trace state: conn 1 delivers a request after the failed flag is set,
creating a new forwardee. -/
def s6 : DState := (exec s5 (Event.gotrequestPkt 1 true true true)).1

/- Concrete trace reaching a drained, not-alive dispatcher: one listener,
maxconn 1. -/

/-- Trace state: freshly initialised dispatcher, 1 listener, maxconn 1. -/
def t0 : DState := dispatch_init 1 1

/-- Trace state: client 0 accepted. -/
def t1 : DState := (exec t0 (evAcceptOk 0)).1

/-- Trace state: conn 0 delivered a request. -/
def t2 : DState := (exec t1 (Event.gotrequestPkt 0 true true true)).1

/-- Trace state: the upstream failed the response; the only connection is
dropped during the drain sweep and the dispatcher is no longer alive. -/
def t3 : DState := (exec t2 (Event.gotresponseFail 0 true true)).1

/- Concrete trace for maxconn = 0. -/

/-- Trace state: freshly initialised dispatcher, 1 listener, maxconn 0;
dispatch_init arms an accept anyway. -/
def u0 : DState := dispatch_init 1 0

/-- Trace state: a client is accepted although maxconn = 0. -/
def u1 : DState := (exec u0 (evAcceptOk 0)).1

/- Basic lemmas about the list helpers. -/

theorem findConn_mem {cs : List Conn} {cid : Nat} {c : Conn}
    (h : findConn cs cid = some c) : c ∈ cs := by
  induction cs with
  | nil => simp [findConn] at h
  | cons x xs ih =>
    rw [findConn] at h
    by_cases hx : x.cid = cid
    · simp only [hx, if_true, Option.some.injEq] at h
      rw [← h]; exact List.mem_cons_self x xs
    · simp only [hx, if_false] at h
      exact List.mem_cons_of_mem x (ih h)

theorem findConn_cid {cs : List Conn} {cid : Nat} {c : Conn}
    (h : findConn cs cid = some c) : c.cid = cid := by
  induction cs with
  | nil => simp [findConn] at h
  | cons x xs ih =>
    rw [findConn] at h
    by_cases hx : x.cid = cid
    · simp only [hx, if_true, Option.some.injEq] at h
      rw [← h]; exact hx
    · simp only [hx, if_false] at h
      exact ih h

theorem findConn_none {cs : List Conn} {cid : Nat}
    (h : findConn cs cid = none) : ∀ x ∈ cs, x.cid ≠ cid := by
  induction cs with
  | nil => intro x hx; simp at hx
  | cons y ys ih =>
    rw [findConn] at h
    by_cases hy : y.cid = cid
    · simp [hy] at h
    · simp only [hy, if_false] at h
      intro x hx
      rcases List.mem_cons.mp hx with hxy | hxs
      · rw [hxy]; exact hy
      · exact ih h x hxs

theorem findConn_mem_cid {cs : List Conn} {x : Conn}
    (hnd : (cs.map Conn.cid).Nodup) (hx : x ∈ cs) :
    findConn cs x.cid = some x := by
  induction cs with
  | nil => simp at hx
  | cons y ys ih =>
    rw [List.map_cons, List.nodup_cons] at hnd
    rw [findConn]
    by_cases hy : y.cid = x.cid
    · rcases List.mem_cons.mp hx with hxy | hxs
      · rw [hxy]; simp
      · exact absurd (hy ▸ List.mem_map_of_mem Conn.cid hxs) hnd.1
    · simp only [hy, if_false]
      rcases List.mem_cons.mp hx with hxy | hxs
      · exact absurd (hxy ▸ rfl) hy
      · exact ih hnd.2 hxs

theorem length_eraseConn {cs : List Conn} {cid : Nat} {c : Conn}
    (h : findConn cs cid = some c) :
    (eraseConn cs cid).length + 1 = cs.length := by
  induction cs with
  | nil => simp [findConn] at h
  | cons x xs ih =>
    rw [findConn] at h
    rw [eraseConn]
    by_cases hx : x.cid = cid
    · simp [hx]
    · simp only [hx, if_false] at h ⊢
      rw [List.length_cons, List.length_cons, ih h]

theorem mem_of_mem_eraseConn {cs : List Conn} {cid : Nat} {x : Conn}
    (h : x ∈ eraseConn cs cid) : x ∈ cs := by
  induction cs with
  | nil => simp [eraseConn] at h
  | cons y ys ih =>
    rw [eraseConn] at h
    by_cases hy : y.cid = cid
    · simp only [hy, if_true] at h
      exact List.mem_cons_of_mem y h
    · simp only [hy, if_false, List.mem_cons] at h
      rcases h with h | h
      · rw [h]; exact List.mem_cons_self y ys
      · exact List.mem_cons_of_mem y (ih h)

theorem mem_eraseConn_of_ne {cs : List Conn} {cid : Nat} {x : Conn}
    (hx : x ∈ cs) (hne : x.cid ≠ cid) : x ∈ eraseConn cs cid := by
  induction cs with
  | nil => simp at hx
  | cons y ys ih =>
    rw [eraseConn]
    by_cases hy : y.cid = cid
    · simp only [hy, if_true]
      rcases List.mem_cons.mp hx with hxy | hxs
      · exact absurd (hxy ▸ hy) hne
      · exact hxs
    · simp only [hy, if_false, List.mem_cons]
      rcases List.mem_cons.mp hx with hxy | hxs
      · exact Or.inl hxy
      · exact Or.inr (ih hxs)

theorem cids_eraseConn_sublist (cs : List Conn) (cid : Nat) :
    ((eraseConn cs cid).map Conn.cid).Sublist (cs.map Conn.cid) := by
  induction cs with
  | nil => simp [eraseConn]
  | cons y ys ih =>
    rw [eraseConn]
    by_cases hy : y.cid = cid
    · simp only [hy, if_true, List.map_cons]
      exact List.sublist_cons_self _ _
    · simp only [hy, if_false, List.map_cons]
      exact ih.cons₂ _

theorem mem_cids_eraseConn {cs : List Conn} {cid q : Nat}
    (hq : q ∈ cs.map Conn.cid) (hne : q ≠ cid) :
    q ∈ (eraseConn cs cid).map Conn.cid := by
  rcases List.mem_map.mp hq with ⟨x, hx, hxq⟩
  exact List.mem_map.mpr ⟨x, mem_eraseConn_of_ne hx (hxq ▸ hne), hxq⟩

theorem eraseConn_cid_ne {cs : List Conn} {cid : Nat}
    (hnd : (cs.map Conn.cid).Nodup) :
    ∀ x ∈ eraseConn cs cid, x.cid ≠ cid := by
  induction cs with
  | nil => intro x hx; simp [eraseConn] at hx
  | cons y ys ih =>
    rw [List.map_cons, List.nodup_cons] at hnd
    rw [eraseConn]
    by_cases hy : y.cid = cid
    · simp only [hy, if_true]
      intro x hx hxc
      exact hnd.1 (hy ▸ hxc ▸ List.mem_map_of_mem Conn.cid hx)
    · simp only [hy, if_false]
      intro x hx
      rcases List.mem_cons.mp hx with hxy | hxs
      · rw [hxy]; exact hy
      · exact ih hnd.2 x hxs

theorem length_setRead (cs : List Conn) (cid : Nat) (b : Bool) :
    (setRead cs cid b).length = cs.length := by
  induction cs with
  | nil => rfl
  | cons x xs ih => rw [setRead, List.length_cons, List.length_cons, ih]

theorem length_addReq (cs : List Conn) (cid : Nat) :
    (addReq cs cid).length = cs.length := by
  induction cs with
  | nil => rfl
  | cons x xs ih => rw [addReq, List.length_cons, List.length_cons, ih]

theorem length_subReq (cs : List Conn) (cid : Nat) :
    (subReq cs cid).length = cs.length := by
  induction cs with
  | nil => rfl
  | cons x xs ih => rw [subReq, List.length_cons, List.length_cons, ih]

theorem cids_setRead (cs : List Conn) (cid : Nat) (b : Bool) :
    (setRead cs cid b).map Conn.cid = cs.map Conn.cid := by
  induction cs with
  | nil => rfl
  | cons x xs ih =>
    rw [setRead, List.map_cons, List.map_cons, ih]
    by_cases hx : x.cid = cid <;> simp [hx]

theorem cids_addReq (cs : List Conn) (cid : Nat) :
    (addReq cs cid).map Conn.cid = cs.map Conn.cid := by
  induction cs with
  | nil => rfl
  | cons x xs ih =>
    rw [addReq, List.map_cons, List.map_cons, ih]
    by_cases hx : x.cid = cid <;> simp [hx]

theorem cids_subReq (cs : List Conn) (cid : Nat) :
    (subReq cs cid).map Conn.cid = cs.map Conn.cid := by
  induction cs with
  | nil => rfl
  | cons x xs ih =>
    rw [subReq, List.map_cons, List.map_cons, ih]
    by_cases hx : x.cid = cid <;> simp [hx]

theorem mem_setRead {cs : List Conn} {cid : Nat} {b : Bool} {x : Conn}
    (h : x ∈ setRead cs cid b) :
    ∃ c ∈ cs, x = if c.cid = cid then { c with readArmed := b } else c := by
  induction cs with
  | nil => simp [setRead] at h
  | cons y ys ih =>
    rw [setRead, List.mem_cons] at h
    rcases h with h | h
    · exact ⟨y, List.mem_cons_self y ys, h⟩
    · rcases ih h with ⟨c, hc, hx⟩
      exact ⟨c, List.mem_cons_of_mem y hc, hx⟩

theorem mem_subReq {cs : List Conn} {cid : Nat} {x : Conn}
    (h : x ∈ subReq cs cid) :
    ∃ c ∈ cs, x = if c.cid = cid then { c with nreq := c.nreq - 1 } else c := by
  induction cs with
  | nil => simp [subReq] at h
  | cons y ys ih =>
    rw [subReq, List.mem_cons] at h
    rcases h with h | h
    · exact ⟨y, List.mem_cons_self y ys, h⟩
    · rcases ih h with ⟨c, hc, hx⟩
      exact ⟨c, List.mem_cons_of_mem y hc, hx⟩

theorem findConn_setRead (cs : List Conn) (cid : Nat) (b : Bool) :
    findConn (setRead cs cid b) cid =
      (findConn cs cid).map (fun c => { c with readArmed := b }) := by
  induction cs with
  | nil => rfl
  | cons x xs ih =>
    rw [setRead, findConn, findConn]
    by_cases hx : x.cid = cid
    · simp [hx]
    · simp only [hx, if_false, ih]

theorem findConn_addReq (cs : List Conn) (cid : Nat) :
    findConn (addReq cs cid) cid =
      (findConn cs cid).map (fun c => { c with nreq := c.nreq + 1 }) := by
  induction cs with
  | nil => rfl
  | cons x xs ih =>
    rw [addReq, findConn, findConn]
    by_cases hx : x.cid = cid
    · simp [hx]
    · simp only [hx, if_false, ih]

theorem findConn_subReq (cs : List Conn) (cid : Nat) :
    findConn (subReq cs cid) cid =
      (findConn cs cid).map (fun c => { c with nreq := c.nreq - 1 }) := by
  induction cs with
  | nil => rfl
  | cons x xs ih =>
    rw [subReq, findConn, findConn]
    by_cases hx : x.cid = cid
    · simp [hx]
    · simp only [hx, if_false, ih]

theorem pkt_conns (cs : List Conn) (cid : Nat) :
    setRead (addReq (setRead cs cid false) cid) cid true =
      cs.map fun c =>
        if c.cid = cid then { c with readArmed := true, nreq := c.nreq + 1 }
        else c := by
  induction cs with
  | nil => rfl
  | cons x xs ih =>
    rw [setRead, addReq, setRead, List.map_cons, ih]
    by_cases hx : x.cid = cid <;> simp [hx]

theorem countFwd_append (fs gs : List Fwd) (cid : Nat) :
    countFwd (fs ++ gs) cid = countFwd fs cid + countFwd gs cid := by
  induction fs with
  | nil => simp [countFwd]
  | cons f fs ih => rw [List.cons_append, countFwd, countFwd, ih]; omega

theorem countFwd_eq_zero {fs : List Fwd} {cid : Nat}
    (h : ∀ f ∈ fs, f.connId ≠ cid) : countFwd fs cid = 0 := by
  induction fs with
  | nil => rfl
  | cons f fs ih =>
    have hf := h f (List.mem_cons_self f fs)
    have ht := ih fun g hg => h g (List.mem_cons_of_mem f hg)
    rw [countFwd, ht]
    simp [hf]

theorem connId_ne_of_countFwd_zero {fs : List Fwd} {cid : Nat}
    (h : countFwd fs cid = 0) : ∀ f ∈ fs, f.connId ≠ cid := by
  induction fs with
  | nil => intro f hf; simp at hf
  | cons g gs ih =>
    rw [countFwd] at h
    intro f hf
    rcases List.mem_cons.mp hf with hfg | hfs
    · subst hfg
      intro hc
      simp [hc] at h
    · exact ih (by omega) f hfs

theorem extractFwd_spec {fs : List Fwd} {fid : Nat} {f : Fwd} {rest : List Fwd}
    (h : extractFwd fs fid = some (f, rest)) :
    f ∈ fs ∧ (∀ g ∈ rest, g ∈ fs) ∧
      ∀ cid, countFwd fs cid =
        countFwd rest cid + (if f.connId = cid then 1 else 0) := by
  induction fs generalizing f rest with
  | nil => simp [extractFwd] at h
  | cons x xs ih =>
    rw [extractFwd] at h
    by_cases hx : x.fid = fid
    · simp only [hx, if_true, Option.some.injEq, Prod.mk.injEq] at h
      obtain ⟨hf, hrest⟩ := h
      subst hf; subst hrest
      refine ⟨List.mem_cons_self x xs, fun g hg => List.mem_cons_of_mem x hg, ?_⟩
      intro cid
      rw [countFwd]; omega
    · simp only [hx, if_false] at h
      cases he : extractFwd xs fid with
      | none => rw [he] at h; simp at h
      | some gr =>
        obtain ⟨g1, r1⟩ := gr
        rw [he] at h
        simp only [Option.some.injEq, Prod.mk.injEq] at h
        obtain ⟨hf, hrest⟩ := h
        obtain ⟨hmem, hsub, hcount⟩ := ih he
        subst hf
        subst hrest
        refine ⟨List.mem_cons_of_mem x hmem, ?_, ?_⟩
        · intro g hg
          rcases List.mem_cons.mp hg with hgx | hgr
          · rw [hgx]; exact List.mem_cons_self x xs
          · exact List.mem_cons_of_mem x (hsub g hgr)
        · intro cid
          rw [countFwd, countFwd, hcount cid]; omega

theorem connIds_setFwdWriting (fs : List Fwd) (fid : Nat) :
    (setFwdWriting fs fid).map Fwd.connId = fs.map Fwd.connId := by
  induction fs with
  | nil => rfl
  | cons f fs ih =>
    rw [setFwdWriting]
    by_cases hf : f.fid = fid
    · simp [hf]
    · simp only [hf, if_false, List.map_cons, ih]

theorem countFwd_setFwdWriting (fs : List Fwd) (fid cid : Nat) :
    countFwd (setFwdWriting fs fid) cid = countFwd fs cid := by
  induction fs with
  | nil => rfl
  | cons f fs ih =>
    rw [setFwdWriting]
    by_cases hf : f.fid = fid
    · simp [hf, countFwd]
    · simp only [hf, if_false, countFwd, ih]

/- Shape lemmas: which fields an operation can touch. -/

theorem accept_start_shape (d : DState) (ok : Bool) :
    ∃ l, (accept_start d ok).1 = { d with listen := l } := by
  unfold accept_start
  split
  · exact ⟨d.listen, rfl⟩
  · split
    · exact ⟨d.listen.map fun _ => true, rfl⟩
    · exact ⟨d.listen, rfl⟩

theorem dropconn_shape (d : DState) (cid : Nat) (aok dok : Bool) :
    (findConn d.conns cid = none ∧ (dropconn d cid aok dok).1 = d) ∨
    ∃ c, findConn d.conns cid = some c ∧ ∃ l,
      (dropconn d cid aok dok).1 =
        { d with
          assertFail := d.assertFail || c.readArmed || !(c.nreq == 0),
          conns := eraseConn d.conns cid,
          nActive := d.nActive - 1,
          listen := l } := by
  unfold dropconn
  cases hf : findConn d.conns cid with
  | none => exact Or.inl ⟨rfl, rfl⟩
  | some c =>
    refine Or.inr ⟨c, rfl, ?_⟩
    dsimp only
    split
    · obtain ⟨l, hl⟩ := accept_start_shape
        { d with
          assertFail := d.assertFail || c.readArmed || !(c.nreq == 0),
          conns := eraseConn d.conns cid,
          nActive := d.nActive - 1 } aok
      exact ⟨l, hl⟩
    · exact ⟨d.listen, rfl⟩

/- Preservation of the connection count nsock_active = |conns|. -/

theorem dropconn_count {d : DState} (h : d.nActive = d.conns.length)
    (cid : Nat) (aok dok : Bool) :
    (dropconn d cid aok dok).1.nActive =
      (dropconn d cid aok dok).1.conns.length := by
  rcases dropconn_shape d cid aok dok with ⟨hf, he⟩ | ⟨c, hf, l, he⟩
  · rw [he]; exact h
  · rw [he]
    have hl := length_eraseConn hf
    show d.nActive - 1 = (eraseConn d.conns cid).length
    omega

theorem readreq_count {d : DState} (h : d.nActive = d.conns.length)
    (cid : Nat) (rrOk : Bool) :
    (readreq d cid rrOk).1.nActive = (readreq d cid rrOk).1.conns.length := by
  unfold readreq
  split
  · exact h
  · dsimp only
    split
    · show d.nActive = (setRead d.conns cid true).length
      rw [length_setRead]; exact h
    · exact h

theorem readreq_cancel_count {d : DState} (h : d.nActive = d.conns.length)
    (cid : Nat) (aok dok : Bool) :
    (readreq_cancel d cid aok dok).1.nActive =
      (readreq_cancel d cid aok dok).1.conns.length := by
  unfold readreq_cancel
  dsimp only
  have h1 : d.nActive = (setRead d.conns cid false).length := by
    rw [length_setRead]; exact h
  split
  · exact h1
  · split
    · apply dropconn_count
      exact h1
    · exact h1

theorem reqdone_count {d : DState} (h : d.nActive = d.conns.length)
    (cid : Nat) (aok dok : Bool) :
    (reqdone d cid aok dok).1.nActive =
      (reqdone d cid aok dok).1.conns.length := by
  unfold reqdone
  dsimp only
  have h1 : d.nActive = (subReq d.conns cid).length := by
    rw [length_subReq]; exact h
  split
  · exact h1
  · split
    · apply dropconn_count
      exact h1
    · exact h1

theorem drainLoop_count {d : DState} (h : d.nActive = d.conns.length)
    (ids : List Nat) (aok dok : Bool) :
    (drainLoop d ids aok dok).1.nActive =
      (drainLoop d ids aok dok).1.conns.length := by
  induction ids generalizing d with
  | nil => exact h
  | cons cid rest ih =>
    rw [drainLoop]
    split
    · exact ih h
    · dsimp only
      split
      · split
        · exact ih (readreq_cancel_count h cid aok dok)
        · exact readreq_cancel_count h cid aok dok
      · exact ih h

theorem gotconn_count {d : DState} (h : d.nActive = d.conns.length)
    (i : Nat) (sOk : Bool) (e : GotconnEnv) :
    (callback_gotconn d i sOk e).1.nActive =
      (callback_gotconn d i sOk e).1.conns.length := by
  unfold callback_gotconn
  dsimp only
  split
  · exact h
  split
  · exact h
  split
  · exact h
  split
  · exact h
  split
  · exact h
  split
  · exact h
  split
  · obtain ⟨l, hl⟩ := accept_start_shape _ e.aok
    rw [hl]
    show d.nActive + 1 =
      (({ cid := d.nextCid, readArmed := true, nreq := 0 } : Conn) ::
        d.conns).length
    rw [List.length_cons, h]
  · show d.nActive + 1 =
      (({ cid := d.nextCid, readArmed := true, nreq := 0 } : Conn) ::
        d.conns).length
    rw [List.length_cons, h]

theorem gotrequest_eof_count {d : DState} (h : d.nActive = d.conns.length)
    (cid : Nat) (aok dok : Bool) :
    (callback_gotrequest_eof d cid aok dok).1.nActive =
      (callback_gotrequest_eof d cid aok dok).1.conns.length := by
  unfold callback_gotrequest_eof
  dsimp only
  have h1 : d.nActive = (setRead d.conns cid false).length := by
    rw [length_setRead]; exact h
  split
  · exact h1
  · split
    · apply dropconn_count
      exact h1
    · exact h1

theorem gotrequest_pkt_count {d : DState} (h : d.nActive = d.conns.length)
    (cid : Nat) (mpoolOk enqOk rrOk : Bool) :
    (callback_gotrequest_pkt d cid mpoolOk enqOk rrOk).1.nActive =
      (callback_gotrequest_pkt d cid mpoolOk enqOk rrOk).1.conns.length := by
  unfold callback_gotrequest_pkt
  dsimp only
  have h1 : d.nActive = (setRead d.conns cid false).length := by
    rw [length_setRead]; exact h
  split
  · exact h1
  split
  · show d.nActive = (addReq (setRead d.conns cid false) cid).length
    rw [length_addReq]; exact h1
  apply readreq_count
  show d.nActive = (addReq (setRead d.conns cid false) cid).length
  rw [length_addReq]; exact h1

theorem gotresponse_buf_count {d : DState} (h : d.nActive = d.conns.length)
    (fid : Nat) (writeOk : Bool) :
    (callback_gotresponse_buf d fid writeOk).1.nActive =
      (callback_gotresponse_buf d fid writeOk).1.conns.length := by
  unfold callback_gotresponse_buf
  split
  · exact h
  · split
    · exact h
    · exact h

theorem gotresponse_fail_count {d : DState} (h : d.nActive = d.conns.length)
    (fid : Nat) (aok dok : Bool) :
    (callback_gotresponse_fail d fid aok dok).1.nActive =
      (callback_gotresponse_fail d fid aok dok).1.conns.length := by
  unfold callback_gotresponse_fail
  split
  · exact h
  · dsimp only
    split
    · apply drainLoop_count
      show (reqdone _ _ aok dok).1.nActive = (reqdone _ _ aok dok).1.conns.length
      apply reqdone_count
      exact h
    · apply reqdone_count
      exact h

theorem writresponse_count {d : DState} (h : d.nActive = d.conns.length)
    (fid : Nat) (wfailed aok dok : Bool) :
    (callback_writresponse d fid wfailed aok dok).1.nActive =
      (callback_writresponse d fid wfailed aok dok).1.conns.length := by
  unfold callback_writresponse
  split
  · exact h
  · apply reqdone_count
    exact h

theorem exec_count {d : DState} (h : d.nActive = d.conns.length) (ev : Event) :
    (exec d ev).1.nActive = (exec d ev).1.conns.length := by
  cases ev with
  | gotconn i sOk e => exact gotconn_count h i sOk e
  | gotrequestEof cid aok dok => exact gotrequest_eof_count h cid aok dok
  | gotrequestPkt cid m q r => exact gotrequest_pkt_count h cid m q r
  | gotresponseBuf fid w => exact gotresponse_buf_count h fid w
  | gotresponseFail fid aok dok => exact gotresponse_fail_count h fid aok dok
  | writresponse fid w aok dok => exact writresponse_count h fid w aok dok

theorem reachable_count {d : DState} (h : Reachable d) :
    d.nActive = d.conns.length := by
  obtain ⟨n, m, hr⟩ := h
  induction hr with
  | refl => rfl
  | tail hab hbc ih =>
    obtain ⟨ev, hfires, hexec⟩ := hbc
    rw [← hexec]
    exact exec_count ih ev

/- The C asserts never fire: every site that calls dropconn or readreq first
establishes the asserted conditions (read_cookie == NULL, and for dropconn
also nrequests == 0). -/

theorem findConn_setRead_some {cs : List Conn} {cid : Nat} {b : Bool}
    {c : Conn} (h : findConn (setRead cs cid b) cid = some c) :
    c.readArmed = b := by
  rw [findConn_setRead] at h
  cases hg : findConn cs cid with
  | none => rw [hg] at h; simp at h
  | some c0 =>
    rw [hg] at h
    simp only [Option.map_some'] at h
    injection h with h2
    rw [← h2]

theorem findConn_addReq_some {cs : List Conn} {cid : Nat} {c : Conn}
    (h : findConn (addReq cs cid) cid = some c) :
    ∃ c0, findConn cs cid = some c0 ∧ c = { c0 with nreq := c0.nreq + 1 } := by
  rw [findConn_addReq] at h
  cases hg : findConn cs cid with
  | none => rw [hg] at h; simp at h
  | some c0 =>
    rw [hg] at h
    simp only [Option.map_some'] at h
    injection h with h2
    exact ⟨c0, rfl, h2.symm⟩

theorem findConn_subReq_some {cs : List Conn} {cid : Nat} {c : Conn}
    (h : findConn (subReq cs cid) cid = some c) :
    ∃ c0, findConn cs cid = some c0 ∧ c = { c0 with nreq := c0.nreq - 1 } := by
  rw [findConn_subReq] at h
  cases hg : findConn cs cid with
  | none => rw [hg] at h; simp at h
  | some c0 =>
    rw [hg] at h
    simp only [Option.map_some'] at h
    injection h with h2
    exact ⟨c0, rfl, h2.symm⟩

theorem dropconn_assert {d : DState} {cid : Nat} (aok dok : Bool)
    (hok : ∀ c, findConn d.conns cid = some c →
      c.readArmed = false ∧ c.nreq = 0) :
    (dropconn d cid aok dok).1.assertFail = d.assertFail := by
  rcases dropconn_shape d cid aok dok with ⟨hf, he⟩ | ⟨c, hf, l, he⟩
  · rw [he]
  · rw [he]
    obtain ⟨h1, h2⟩ := hok c hf
    show (d.assertFail || c.readArmed || !(c.nreq == 0)) = d.assertFail
    rw [h1, h2]
    simp

theorem readreq_assert {d : DState} {cid : Nat} (rrOk : Bool)
    (hok : ∀ c, findConn d.conns cid = some c → c.readArmed = false) :
    (readreq d cid rrOk).1.assertFail = d.assertFail := by
  unfold readreq
  split
  · rfl
  · next c hf =>
    dsimp only
    have h1 := hok c hf
    split
    · show (d.assertFail || c.readArmed) = d.assertFail
      rw [h1]; simp
    · show (d.assertFail || c.readArmed) = d.assertFail
      rw [h1]; simp

theorem readreq_cancel_assert (d : DState) (cid : Nat) (aok dok : Bool) :
    (readreq_cancel d cid aok dok).1.assertFail = d.assertFail := by
  unfold readreq_cancel
  dsimp only
  split
  · rfl
  · next c hf =>
    split
    · next hn =>
      apply dropconn_assert
      intro c2 h2
      rw [hf] at h2
      injection h2 with h3
      rw [← h3]
      exact ⟨findConn_setRead_some hf, hn⟩
    · rfl

theorem reqdone_assert (d : DState) (cid : Nat) (aok dok : Bool) :
    (reqdone d cid aok dok).1.assertFail = d.assertFail := by
  unfold reqdone
  dsimp only
  split
  · rfl
  · next c hf =>
    split
    · next hn =>
      apply dropconn_assert
      intro c2 h2
      rw [hf] at h2
      injection h2 with h3
      rw [← h3]
      exact ⟨hn.2, hn.1⟩
    · rfl

theorem drainLoop_assert (d : DState) (ids : List Nat) (aok dok : Bool) :
    (drainLoop d ids aok dok).1.assertFail = d.assertFail := by
  induction ids generalizing d with
  | nil => rfl
  | cons cid rest ih =>
    rw [drainLoop]
    split
    · exact ih d
    · dsimp only
      split
      · split
        · rw [ih, readreq_cancel_assert]
        · exact readreq_cancel_assert d cid aok dok
      · exact ih d

theorem gotconn_assert (d : DState) (i : Nat) (sOk : Bool) (e : GotconnEnv) :
    (callback_gotconn d i sOk e).1.assertFail = d.assertFail := by
  unfold callback_gotconn
  dsimp only
  split
  · rfl
  split
  · rfl
  split
  · rfl
  split
  · rfl
  split
  · rfl
  split
  · rfl
  split
  · obtain ⟨l, hl⟩ := accept_start_shape _ e.aok
    rw [hl]
    rfl
  · rfl

theorem gotrequest_eof_assert (d : DState) (cid : Nat) (aok dok : Bool) :
    (callback_gotrequest_eof d cid aok dok).1.assertFail = d.assertFail := by
  unfold callback_gotrequest_eof
  dsimp only
  split
  · rfl
  · next c hf =>
    split
    · next hn =>
      apply dropconn_assert
      intro c2 h2
      rw [hf] at h2
      injection h2 with h3
      rw [← h3]
      exact ⟨findConn_setRead_some hf, hn⟩
    · rfl

theorem gotrequest_pkt_assert (d : DState) (cid : Nat) (m q r : Bool) :
    (callback_gotrequest_pkt d cid m q r).1.assertFail = d.assertFail := by
  unfold callback_gotrequest_pkt
  dsimp only
  split
  · rfl
  split
  · rfl
  apply readreq_assert
  intro c h2
  obtain ⟨c0, h0, hc⟩ := findConn_addReq_some h2
  have h4 := findConn_setRead_some h0
  rw [hc]
  show c0.readArmed = false
  exact h4

theorem gotresponse_buf_assert (d : DState) (fid : Nat) (w : Bool) :
    (callback_gotresponse_buf d fid w).1.assertFail = d.assertFail := by
  unfold callback_gotresponse_buf
  split
  · rfl
  · split
    · rfl
    · rfl

theorem gotresponse_fail_assert (d : DState) (fid : Nat) (aok dok : Bool) :
    (callback_gotresponse_fail d fid aok dok).1.assertFail = d.assertFail := by
  unfold callback_gotresponse_fail
  split
  · rfl
  · next fr hf =>
    dsimp only
    split
    · rw [drainLoop_assert]
      exact reqdone_assert { d with fwds := fr.2 } fr.1.connId aok dok
    · exact reqdone_assert { d with fwds := fr.2 } fr.1.connId aok dok

theorem writresponse_assert (d : DState) (fid : Nat) (w aok dok : Bool) :
    (callback_writresponse d fid w aok dok).1.assertFail = d.assertFail := by
  unfold callback_writresponse
  split
  · rfl
  · next fr hf =>
    exact reqdone_assert { d with fwds := fr.2 } fr.1.connId aok dok

theorem exec_assert (d : DState) (ev : Event) :
    (exec d ev).1.assertFail = d.assertFail := by
  cases ev with
  | gotconn i sOk e => exact gotconn_assert d i sOk e
  | gotrequestEof cid aok dok => exact gotrequest_eof_assert d cid aok dok
  | gotrequestPkt cid m q r => exact gotrequest_pkt_assert d cid m q r
  | gotresponseBuf fid w => exact gotresponse_buf_assert d fid w
  | gotresponseFail fid aok dok => exact gotresponse_fail_assert d fid aok dok
  | writresponse fid w aok dok => exact writresponse_assert d fid w aok dok

theorem reachable_assert {d : DState} (h : Reachable d) :
    d.assertFail = false := by
  obtain ⟨n, m, hr⟩ := h
  induction hr with
  | refl => rfl
  | tail hab hbc ih =>
    obtain ⟨ev, hfires, hexec⟩ := hbc
    rw [← hexec, exec_assert]
    exact ih

/- Decomposition helpers used by the main invariant. -/

theorem setRead_of_none {cs : List Conn} {cid : Nat} {b : Bool}
    (h : findConn cs cid = none) : setRead cs cid b = cs := by
  induction cs with
  | nil => rfl
  | cons x xs ih =>
    rw [findConn] at h
    by_cases hx : x.cid = cid
    · simp [hx] at h
    · simp only [hx, if_false] at h
      rw [setRead, if_neg hx, ih h]

theorem findConn_setRead_none {cs : List Conn} {cid : Nat} {b : Bool}
    (h : findConn (setRead cs cid b) cid = none) : findConn cs cid = none := by
  rw [findConn_setRead] at h
  cases hg : findConn cs cid with
  | none => rfl
  | some c0 => rw [hg] at h; simp at h

theorem findConn_setRead_decomp {cs : List Conn} {cid : Nat} {b : Bool}
    {c : Conn} (h : findConn (setRead cs cid b) cid = some c) :
    ∃ c1, findConn cs cid = some c1 ∧ c = { c1 with readArmed := b } := by
  rw [findConn_setRead] at h
  cases hg : findConn cs cid with
  | none => rw [hg] at h; simp at h
  | some c1 =>
    rw [hg] at h
    simp only [Option.map_some'] at h
    injection h with h2
    exact ⟨c1, rfl, h2.symm⟩

theorem mem_setRead_fields {cs : List Conn} {cid : Nat} {b : Bool} {x : Conn}
    (hx : x ∈ setRead cs cid b) :
    ∃ c ∈ cs, x.cid = c.cid ∧ x.nreq = c.nreq ∧
      ((c.cid ≠ cid ∧ x = c) ∨
        (c.cid = cid ∧ x = { c with readArmed := b })) := by
  obtain ⟨c, hcm, hxc⟩ := mem_setRead hx
  by_cases h : c.cid = cid
  · rw [if_pos h] at hxc
    exact ⟨c, hcm, by rw [hxc], by rw [hxc], Or.inr ⟨h, hxc⟩⟩
  · rw [if_neg h] at hxc
    exact ⟨c, hcm, by rw [hxc], by rw [hxc], Or.inl ⟨h, hxc⟩⟩

theorem mem_subReq_fields {cs : List Conn} {cid : Nat} {x : Conn}
    (hx : x ∈ subReq cs cid) :
    ∃ c ∈ cs, x.cid = c.cid ∧ x.readArmed = c.readArmed ∧
      ((c.cid ≠ cid ∧ x = c) ∨
        (c.cid = cid ∧ x = { c with nreq := c.nreq - 1 })) := by
  obtain ⟨c, hcm, hxc⟩ := mem_subReq hx
  by_cases h : c.cid = cid
  · rw [if_pos h] at hxc
    exact ⟨c, hcm, by rw [hxc], by rw [hxc], Or.inr ⟨h, hxc⟩⟩
  · rw [if_neg h] at hxc
    exact ⟨c, hcm, by rw [hxc], by rw [hxc], Or.inl ⟨h, hxc⟩⟩

theorem findConn_unique {cs : List Conn} {cid : Nat} {c x : Conn}
    (hnd : (cs.map Conn.cid).Nodup) (hf : findConn cs cid = some c)
    (hx : x ∈ cs) (hcid : x.cid = cid) : x = c := by
  have h2 := findConn_mem_cid hnd hx
  rw [hcid, hf] at h2
  injection h2 with h3
  exact h3.symm

theorem mem_setFwdWriting {fs : List Fwd} {fid : Nat} {f : Fwd}
    (h : f ∈ setFwdWriting fs fid) : ∃ g ∈ fs, f.connId = g.connId := by
  induction fs with
  | nil => simp [setFwdWriting] at h
  | cons x xs ih =>
    rw [setFwdWriting] at h
    by_cases hx : x.fid = fid
    · rw [if_pos hx, List.mem_cons] at h
      rcases h with h | h
      · exact ⟨x, List.mem_cons_self x xs, by rw [h]⟩
      · exact ⟨f, List.mem_cons_of_mem x (by exact h), rfl⟩
    · rw [if_neg hx, List.mem_cons] at h
      rcases h with h | h
      · exact ⟨x, List.mem_cons_self x xs, by rw [h]⟩
      · rcases ih h with ⟨g, hg, hfg⟩
        exact ⟨g, List.mem_cons_of_mem x hg, hfg⟩

theorem cids_pktMap (cs : List Conn) (cid : Nat) :
    ((cs.map fun c =>
        if c.cid = cid then { c with readArmed := true, nreq := c.nreq + 1 }
        else c).map Conn.cid) = cs.map Conn.cid := by
  rw [List.map_map]
  apply List.map_congr_left
  intro c _
  by_cases h : c.cid = cid <;> simp [h]

/-- The main inductive invariant of the dispatcher along callbacks that
return success: connection ids are below the allocation counter and unique,
every live forwardee references a connection that is still in the list, the
nrequests counter of each connection counts exactly the live forwardees
referencing it, and no undead connection (no armed read and no requests)
remains in the list. -/
structure Inv (d : DState) : Prop where
  cidLt : ∀ c ∈ d.conns, c.cid < d.nextCid
  nodup : (d.conns.map Conn.cid).Nodup
  fwdConn : ∀ f ∈ d.fwds, f.connId ∈ d.conns.map Conn.cid
  acct : ∀ c ∈ d.conns, c.nreq = countFwd d.fwds c.cid
  live : ∀ c ∈ d.conns, c.readArmed = true ∨ c.nreq ≠ 0

theorem Inv.congr {d e : DState} (h : Inv d) (hc : e.conns = d.conns)
    (hf : e.fwds = d.fwds) (hn : e.nextCid = d.nextCid) : Inv e := by
  constructor
  · rw [hc, hn]; exact h.cidLt
  · rw [hc]; exact h.nodup
  · rw [hc, hf]; exact h.fwdConn
  · rw [hc, hf]; exact h.acct
  · rw [hc]; exact h.live

theorem Inv_cons_fresh {d : DState} (hI : Inv d) {e : DState}
    (hc : e.conns = { cid := d.nextCid, readArmed := true, nreq := 0 } :: d.conns)
    (hf : e.fwds = d.fwds) (hn : e.nextCid = d.nextCid + 1) : Inv e := by
  constructor
  · intro x hx
    rw [hc] at hx
    rw [hn]
    rcases List.mem_cons.mp hx with hxn | hxs
    · rw [hxn]
      show d.nextCid < d.nextCid + 1
      omega
    · have := hI.cidLt x hxs
      omega
  · rw [hc, List.map_cons]
    refine List.nodup_cons.mpr ⟨?_, hI.nodup⟩
    intro hmem
    have hmem2 : d.nextCid ∈ d.conns.map Conn.cid := hmem
    rcases List.mem_map.mp hmem2 with ⟨y, hy, hyc⟩
    have h2 := hI.cidLt y hy
    omega
  · intro f hfm
    rw [hf] at hfm
    rw [hc, List.map_cons]
    exact List.mem_cons_of_mem _ (hI.fwdConn f hfm)
  · intro x hx
    rw [hc] at hx
    rw [hf]
    rcases List.mem_cons.mp hx with hxn | hxs
    · rw [hxn]
      show (0 : Nat) = countFwd d.fwds d.nextCid
      symm
      apply countFwd_eq_zero
      intro g hg hgc
      rcases List.mem_map.mp (hI.fwdConn g hg) with ⟨y, hy, hyc⟩
      have h2 := hI.cidLt y hy
      rw [hgc] at hyc
      omega
    · exact hI.acct x hxs
  · intro x hx
    rw [hc] at hx
    rcases List.mem_cons.mp hx with hxn | hxs
    · rw [hxn]
      exact Or.inl rfl
    · exact hI.live x hxs

theorem dropconn_inv {d : DState} (cid : Nat) (aok dok : Bool)
    (h1 : (d.conns.map Conn.cid).Nodup)
    (h2 : ∀ c ∈ d.conns, c.cid < d.nextCid)
    (h3 : ∀ f ∈ d.fwds, f.connId ∈ d.conns.map Conn.cid)
    (h4 : ∀ c ∈ d.conns, c.nreq = countFwd d.fwds c.cid)
    (h5 : ∀ c ∈ d.conns, c.cid ≠ cid → (c.readArmed = true ∨ c.nreq ≠ 0))
    (hcz : ∀ c, findConn d.conns cid = some c → c.nreq = 0) :
    Inv (dropconn d cid aok dok).1 := by
  rcases dropconn_shape d cid aok dok with ⟨hf, he⟩ | ⟨c, hf, l, he⟩
  · rw [he]
    have hne := findConn_none hf
    exact ⟨h2, h1, h3, h4, fun c hcm => h5 c hcm (hne c hcm)⟩
  · rw [he]
    have hc0 : c.nreq = 0 := hcz c hf
    have hcnt : countFwd d.fwds cid = 0 := by
      have ha := h4 c (findConn_mem hf)
      rw [findConn_cid hf] at ha
      omega
    constructor
    · intro x hx
      have hx2 : x ∈ eraseConn d.conns cid := hx
      show x.cid < d.nextCid
      exact h2 x (mem_of_mem_eraseConn hx2)
    · show ((eraseConn d.conns cid).map Conn.cid).Nodup
      exact (cids_eraseConn_sublist d.conns cid).nodup h1
    · intro f hfm
      have hfm2 : f ∈ d.fwds := hfm
      have hni := h3 f hfm2
      have hfne : f.connId ≠ cid := connId_ne_of_countFwd_zero hcnt f hfm2
      exact mem_cids_eraseConn hni hfne
    · intro x hx
      have hx2 : x ∈ eraseConn d.conns cid := hx
      show x.nreq = countFwd d.fwds x.cid
      exact h4 x (mem_of_mem_eraseConn hx2)
    · intro x hx
      have hx2 : x ∈ eraseConn d.conns cid := hx
      exact h5 x (mem_of_mem_eraseConn hx2) (eraseConn_cid_ne h1 x hx2)

theorem readreq_cancel_inv {d : DState} (hI : Inv d) (cid : Nat)
    (aok dok : Bool) : Inv (readreq_cancel d cid aok dok).1 := by
  unfold readreq_cancel
  dsimp only
  have hnodup : ((setRead d.conns cid false).map Conn.cid).Nodup := by
    rw [cids_setRead]; exact hI.nodup
  have hlt : ∀ x ∈ setRead d.conns cid false, x.cid < d.nextCid := by
    intro x hx
    obtain ⟨c0, hc0, hcid, _, _⟩ := mem_setRead_fields hx
    rw [hcid]; exact hI.cidLt c0 hc0
  have hfc : ∀ f ∈ d.fwds,
      f.connId ∈ (setRead d.conns cid false).map Conn.cid := by
    intro f hf2
    rw [cids_setRead]; exact hI.fwdConn f hf2
  have hacct : ∀ x ∈ setRead d.conns cid false,
      x.nreq = countFwd d.fwds x.cid := by
    intro x hx
    obtain ⟨c0, hc0, hcid, hnreq, _⟩ := mem_setRead_fields hx
    rw [hcid, hnreq]; exact hI.acct c0 hc0
  have hlive : ∀ x ∈ setRead d.conns cid false, x.cid ≠ cid →
      (x.readArmed = true ∨ x.nreq ≠ 0) := by
    intro x hx hne
    obtain ⟨c0, hc0, hcid, _, hcase⟩ := mem_setRead_fields hx
    rcases hcase with ⟨h6, h7⟩ | ⟨h6, h7⟩
    · rw [h7]; exact hI.live c0 hc0
    · rw [hcid, h6] at hne; exact absurd rfl hne
  split
  · next hf =>
    have h0 := findConn_setRead_none hf
    rw [setRead_of_none h0]
    exact Inv.congr hI rfl rfl rfl
  · next c hf =>
    split
    · next hn =>
      apply dropconn_inv
      · exact hnodup
      · exact hlt
      · exact hfc
      · exact hacct
      · exact hlive
      · intro c2 hc2
        have hc2b : findConn (setRead d.conns cid false) cid = some c2 := hc2
        rw [hf] at hc2b
        injection hc2b with h3b
        rw [← h3b]; exact hn
    · next hn =>
      refine ⟨hlt, hnodup, hfc, hacct, ?_⟩
      intro x hx
      have hx2 : x ∈ setRead d.conns cid false := hx
      by_cases hne : x.cid = cid
      · have hxc : x = c := findConn_unique hnodup hf hx2 hne
        rw [hxc]
        exact Or.inr hn
      · exact hlive x hx2 hne

theorem reqdone_inv {d : DState} (cid : Nat) (aok dok : Bool)
    (h1 : (d.conns.map Conn.cid).Nodup)
    (h2 : ∀ c ∈ d.conns, c.cid < d.nextCid)
    (h3 : ∀ f ∈ d.fwds, f.connId ∈ d.conns.map Conn.cid)
    (h4a : ∀ c ∈ d.conns, c.cid ≠ cid → c.nreq = countFwd d.fwds c.cid)
    (h4b : ∀ c ∈ d.conns, c.cid = cid → c.nreq = countFwd d.fwds c.cid + 1)
    (h5 : ∀ c ∈ d.conns, c.cid ≠ cid → (c.readArmed = true ∨ c.nreq ≠ 0)) :
    Inv (reqdone d cid aok dok).1 := by
  unfold reqdone
  dsimp only
  have hnodup : ((subReq d.conns cid).map Conn.cid).Nodup := by
    rw [cids_subReq]; exact h1
  have hlt : ∀ x ∈ subReq d.conns cid, x.cid < d.nextCid := by
    intro x hx
    obtain ⟨c0, hc0, hcid, _, _⟩ := mem_subReq_fields hx
    rw [hcid]; exact h2 c0 hc0
  have hfc : ∀ f ∈ d.fwds,
      f.connId ∈ (subReq d.conns cid).map Conn.cid := by
    intro f hf2
    rw [cids_subReq]; exact h3 f hf2
  have hacct : ∀ x ∈ subReq d.conns cid, x.nreq = countFwd d.fwds x.cid := by
    intro x hx
    obtain ⟨c0, hc0, hcid, _, hcase⟩ := mem_subReq_fields hx
    rcases hcase with ⟨h6, h7⟩ | ⟨h6, h7⟩
    · rw [h7]; exact h4a c0 hc0 h6
    · have h8 := h4b c0 hc0 h6
      rw [h7]
      show c0.nreq - 1 = countFwd d.fwds c0.cid
      omega
  have hlive : ∀ x ∈ subReq d.conns cid, x.cid ≠ cid →
      (x.readArmed = true ∨ x.nreq ≠ 0) := by
    intro x hx hne
    obtain ⟨c0, hc0, hcid, _, hcase⟩ := mem_subReq_fields hx
    rcases hcase with ⟨h6, h7⟩ | ⟨h6, h7⟩
    · rw [h7]; exact h5 c0 hc0 h6
    · rw [hcid, h6] at hne; exact absurd rfl hne
  split
  · next hf =>
    have hne := findConn_none hf
    exact ⟨hlt, hnodup, hfc, hacct, fun x hx => hlive x hx (hne x hx)⟩
  · next c hf =>
    split
    · next hn =>
      apply dropconn_inv
      · exact hnodup
      · exact hlt
      · exact hfc
      · exact hacct
      · exact hlive
      · intro c2 hc2
        have hc2b : findConn (subReq d.conns cid) cid = some c2 := hc2
        rw [hf] at hc2b
        injection hc2b with h3b
        rw [← h3b]; exact hn.1
    · next hn =>
      refine ⟨hlt, hnodup, hfc, hacct, ?_⟩
      intro x hx
      have hx2 : x ∈ subReq d.conns cid := hx
      by_cases hne : x.cid = cid
      · have hxc : x = c := findConn_unique hnodup hf hx2 hne
        rw [hxc]
        by_cases hz : c.nreq = 0
        · cases harm : c.readArmed with
          | false => exact absurd ⟨hz, harm⟩ hn
          | true => exact Or.inl rfl
        · exact Or.inr hz
      · exact hlive x hx2 hne

theorem drainLoop_inv {d : DState} (hI : Inv d) (ids : List Nat)
    (aok dok : Bool) : Inv (drainLoop d ids aok dok).1 := by
  induction ids generalizing d with
  | nil => exact hI
  | cons cid rest ih =>
    rw [drainLoop]
    split
    · exact ih hI
    · dsimp only
      split
      · split
        · exact ih (readreq_cancel_inv hI cid aok dok)
        · exact readreq_cancel_inv hI cid aok dok
      · exact ih hI

theorem gotconn_inv {d : DState} (hI : Inv d) (i : Nat) (sOk : Bool)
    (e : GotconnEnv) : Inv (callback_gotconn d i sOk e).1 := by
  unfold callback_gotconn
  dsimp only
  split
  · exact Inv.congr hI rfl rfl rfl
  split
  · exact Inv.congr hI rfl rfl rfl
  split
  · exact Inv.congr hI rfl rfl rfl
  split
  · exact Inv.congr hI rfl rfl rfl
  split
  · exact Inv.congr hI rfl rfl rfl
  split
  · exact Inv.congr hI rfl rfl rfl
  split
  · obtain ⟨l, hl⟩ := accept_start_shape _ e.aok
    rw [hl]
    exact Inv_cons_fresh hI rfl rfl rfl
  · exact Inv_cons_fresh hI rfl rfl rfl

theorem eof_fst (d : DState) (cid : Nat) (aok dok : Bool) :
    (callback_gotrequest_eof d cid aok dok).1 =
      (readreq_cancel d cid aok dok).1 := by
  unfold callback_gotrequest_eof readreq_cancel
  dsimp only
  split
  · rfl
  · split
    · rfl
    · rfl

theorem gotrequest_eof_inv {d : DState} (hI : Inv d) (cid : Nat)
    (aok dok : Bool) : Inv (callback_gotrequest_eof d cid aok dok).1 := by
  rw [eof_fst]
  exact readreq_cancel_inv hI cid aok dok

theorem gotrequest_pkt_inv {d : DState} (hI : Inv d) (cid : Nat)
    (m q r : Bool)
    (hret : (callback_gotrequest_pkt d cid m q r).2 = 0) :
    Inv (callback_gotrequest_pkt d cid m q r).1 := by
  unfold callback_gotrequest_pkt at hret ⊢
  dsimp only at hret ⊢
  by_cases hm : m = false
  · rw [if_pos hm] at hret
    simp at hret
  rw [if_neg hm] at hret ⊢
  by_cases hq : q = false
  · rw [if_pos hq] at hret
    simp at hret
  rw [if_neg hq] at hret ⊢
  unfold readreq at hret ⊢
  dsimp only at hret ⊢
  cases hf : findConn (addReq (setRead d.conns cid false) cid) cid with
  | none =>
    rw [hf] at hret
    simp at hret
  | some c =>
    simp only [hf] at hret ⊢
    by_cases hr : r = true
    · rw [if_pos hr]
      have hex : cid ∈ d.conns.map Conn.cid := by
        obtain ⟨c0, h0, _⟩ := findConn_addReq_some hf
        obtain ⟨c1, h1, _⟩ := findConn_setRead_decomp h0
        exact List.mem_map.mpr ⟨c1, findConn_mem h1, findConn_cid h1⟩
      rw [pkt_conns]
      constructor
      · intro x hx
        rcases List.mem_map.mp hx with ⟨c0, hc0, hPc⟩
        have hlt := hI.cidLt c0 hc0
        by_cases hcc : c0.cid = cid
        · rw [if_pos hcc] at hPc
          rw [← hPc]
          show c0.cid < d.nextCid
          exact hlt
        · rw [if_neg hcc] at hPc
          rw [← hPc]
          exact hlt
      · show ((d.conns.map fun c =>
            if c.cid = cid then { c with readArmed := true, nreq := c.nreq + 1 }
            else c).map Conn.cid).Nodup
        rw [cids_pktMap]
        exact hI.nodup
      · intro f hfm
        have hfm2 : f ∈ d.fwds ++
            [{ fid := d.nextFid, connId := cid, phase := Phase.upstream }] := hfm
        rw [cids_pktMap]
        rcases List.mem_append.mp hfm2 with hold | hnew
        · exact hI.fwdConn f hold
        · have hfe : f =
              { fid := d.nextFid, connId := cid, phase := Phase.upstream } := by
            simpa using hnew
          rw [hfe]
          exact hex
      · intro x hx
        rcases List.mem_map.mp hx with ⟨c0, hc0, hPc⟩
        have ha := hI.acct c0 hc0
        by_cases hcc : c0.cid = cid
        · rw [if_pos hcc] at hPc
          rw [← hPc]
          show c0.nreq + 1 = countFwd (d.fwds ++
            [{ fid := d.nextFid, connId := cid, phase := Phase.upstream }]) c0.cid
          rw [countFwd_append]
          have h1c : countFwd
              [{ fid := d.nextFid, connId := cid, phase := Phase.upstream }]
              c0.cid = 1 := by
            show (if cid = c0.cid then 1 else 0) + 0 = 1
            rw [if_pos hcc.symm]
          omega
        · rw [if_neg hcc] at hPc
          rw [← hPc]
          show c0.nreq = countFwd (d.fwds ++
            [{ fid := d.nextFid, connId := cid, phase := Phase.upstream }]) c0.cid
          rw [countFwd_append]
          have h1c : countFwd
              [{ fid := d.nextFid, connId := cid, phase := Phase.upstream }]
              c0.cid = 0 := by
            show (if cid = c0.cid then 1 else 0) + 0 = 0
            rw [if_neg fun hh => hcc hh.symm]
          omega
      · intro x hx
        rcases List.mem_map.mp hx with ⟨c0, hc0, hPc⟩
        by_cases hcc : c0.cid = cid
        · rw [if_pos hcc] at hPc
          rw [← hPc]
          exact Or.inl rfl
        · rw [if_neg hcc] at hPc
          rw [← hPc]
          exact hI.live c0 hc0
    · rw [if_neg hr] at hret
      simp at hret

theorem gotresponse_buf_inv {d : DState} (hI : Inv d) (fid : Nat) (w : Bool)
    (hret : (callback_gotresponse_buf d fid w).2 = 0) :
    Inv (callback_gotresponse_buf d fid w).1 := by
  unfold callback_gotresponse_buf at hret ⊢
  cases hf : extractFwd d.fwds fid with
  | none =>
    simp only [hf]
    exact hI
  | some fr =>
    simp only [hf] at hret ⊢
    by_cases hw : w = true
    · rw [if_pos hw]
      constructor
      · exact hI.cidLt
      · exact hI.nodup
      · intro f hfm
        have hfm2 : f ∈ setFwdWriting d.fwds fid := hfm
        obtain ⟨g, hg, hfg⟩ := mem_setFwdWriting hfm2
        rw [hfg]
        exact hI.fwdConn g hg
      · intro c hcm
        show c.nreq = countFwd (setFwdWriting d.fwds fid) c.cid
        rw [countFwd_setFwdWriting]
        exact hI.acct c hcm
      · exact hI.live
    · rw [if_neg hw] at hret
      simp at hret

theorem writresponse_inv {d : DState} (hI : Inv d) (fid : Nat)
    (w aok dok : Bool) : Inv (callback_writresponse d fid w aok dok).1 := by
  unfold callback_writresponse
  split
  · exact hI
  · next fr hf =>
    obtain ⟨hmem, hsub, hcount⟩ := extractFwd_spec hf
    apply reqdone_inv
    · exact hI.nodup
    · exact hI.cidLt
    · intro f hfm
      have hfm2 : f ∈ fr.2 := hfm
      exact hI.fwdConn f (hsub f hfm2)
    · intro c hcm hne
      have ha := hI.acct c hcm
      have hc2 := hcount c.cid
      have hne2 : fr.1.connId ≠ c.cid := fun hh => hne hh.symm
      rw [if_neg hne2] at hc2
      show c.nreq = countFwd fr.2 c.cid
      omega
    · intro c hcm hceq
      have ha := hI.acct c hcm
      have hc2 := hcount c.cid
      rw [if_pos hceq.symm] at hc2
      show c.nreq = countFwd fr.2 c.cid + 1
      omega
    · intro c hcm hne
      exact hI.live c hcm

theorem gotresponse_fail_inv {d : DState} (hI : Inv d) (fid : Nat)
    (aok dok : Bool) : Inv (callback_gotresponse_fail d fid aok dok).1 := by
  unfold callback_gotresponse_fail
  split
  · exact hI
  · next fr hf =>
    dsimp only
    obtain ⟨hmem, hsub, hcount⟩ := extractFwd_spec hf
    have hp : Inv (reqdone { d with fwds := fr.2 } fr.1.connId aok dok).1 := by
      apply reqdone_inv
      · exact hI.nodup
      · exact hI.cidLt
      · intro f hfm
        have hfm2 : f ∈ fr.2 := hfm
        exact hI.fwdConn f (hsub f hfm2)
      · intro c hcm hne
        have ha := hI.acct c hcm
        have hc2 := hcount c.cid
        have hne2 : fr.1.connId ≠ c.cid := fun hh => hne hh.symm
        rw [if_neg hne2] at hc2
        show c.nreq = countFwd fr.2 c.cid
        omega
      · intro c hcm hceq
        have ha := hI.acct c hcm
        have hc2 := hcount c.cid
        rw [if_pos hceq.symm] at hc2
        show c.nreq = countFwd fr.2 c.cid + 1
        omega
      · intro c hcm hne
        exact hI.live c hcm
    split
    · apply drainLoop_inv
      exact Inv.congr hp rfl rfl rfl
    · exact hp

theorem exec_inv {d : DState} (hI : Inv d) (ev : Event)
    (hret : (exec d ev).2 = 0) : Inv (exec d ev).1 := by
  cases ev with
  | gotconn i sOk e => exact gotconn_inv hI i sOk e
  | gotrequestEof cid aok dok => exact gotrequest_eof_inv hI cid aok dok
  | gotrequestPkt cid m q r => exact gotrequest_pkt_inv hI cid m q r hret
  | gotresponseBuf fid w => exact gotresponse_buf_inv hI fid w hret
  | gotresponseFail fid aok dok => exact gotresponse_fail_inv hI fid aok dok
  | writresponse fid w aok dok => exact writresponse_inv hI fid w aok dok

theorem init_inv (n m : Nat) : Inv (dispatch_init n m) := by
  constructor
  · intro c hc; simp [dispatch_init] at hc
  · simp [dispatch_init]
  · intro f hf; simp [dispatch_init] at hf
  · intro c hc; simp [dispatch_init] at hc
  · intro c hc; simp [dispatch_init] at hc

theorem reachableOk_inv {d : DState} (h : ReachableOk d) : Inv d := by
  obtain ⟨n, m, hr⟩ := h
  induction hr with
  | refl => exact init_inv n m
  | tail hab hbc ih =>
    obtain ⟨ev, hfires, hexec⟩ := hbc
    have h2 := exec_inv ih ev (by rw [hexec])
    rw [hexec] at h2
    exact h2

/- Reachability of the concrete trace states. -/

theorem stepOk_step {d d2 : DState} (h : StepOk d d2) : Step d d2 := by
  obtain ⟨ev, hfires, hexec⟩ := h
  exact ⟨ev, hfires, by rw [hexec]⟩

theorem reachableOk_reachable {d : DState} (h : ReachableOk d) :
    Reachable d := by
  obtain ⟨n, m, hr⟩ := h
  refine ⟨n, m, ?_⟩
  induction hr with
  | refl => exact Relation.ReflTransGen.refl
  | tail hab hbc ih => exact Relation.ReflTransGen.tail ih (stepOk_step hbc)

theorem stepOk_s0_s1 : StepOk s0 s1 := ⟨evAcceptOk 0, by decide, by decide⟩

theorem stepOk_s1_s2 : StepOk s1 s2 :=
  ⟨Event.gotrequestPkt 0 true true true, by decide, by decide⟩

theorem stepOk_s2_s3 : StepOk s2 s3 := ⟨evAcceptOk 0, by decide, by decide⟩

theorem stepOk_s3_s4 : StepOk s3 s4 :=
  ⟨Event.gotresponseFail 0 true true, by decide, by decide⟩

theorem stepOk_s4_s5 : StepOk s4 s5 := ⟨evAcceptOk 0, by decide, by decide⟩

theorem stepOk_s5_s6 : StepOk s5 s6 :=
  ⟨Event.gotrequestPkt 1 true true true, by decide, by decide⟩

theorem reachOk_s3 : ReachableOk s3 :=
  ⟨1, 2, Relation.ReflTransGen.head stepOk_s0_s1
    (Relation.ReflTransGen.head stepOk_s1_s2
      (Relation.ReflTransGen.head stepOk_s2_s3 Relation.ReflTransGen.refl))⟩

theorem reachOk_s4 : ReachableOk s4 :=
  ⟨1, 2, Relation.ReflTransGen.head stepOk_s0_s1
    (Relation.ReflTransGen.head stepOk_s1_s2
      (Relation.ReflTransGen.head stepOk_s2_s3
        (Relation.ReflTransGen.head stepOk_s3_s4
          Relation.ReflTransGen.refl)))⟩

theorem reach_s3 : Reachable s3 := reachableOk_reachable reachOk_s3

theorem reach_s4 : Reachable s4 := reachableOk_reachable reachOk_s4

theorem stepOk_t0_t1 : StepOk t0 t1 := ⟨evAcceptOk 0, by decide, by decide⟩

theorem stepOk_t1_t2 : StepOk t1 t2 :=
  ⟨Event.gotrequestPkt 0 true true true, by decide, by decide⟩

theorem stepOk_t2_t3 : StepOk t2 t3 :=
  ⟨Event.gotresponseFail 0 true true, by decide, by decide⟩

theorem reachOk_t1 : ReachableOk t1 :=
  ⟨1, 1, Relation.ReflTransGen.head stepOk_t0_t1 Relation.ReflTransGen.refl⟩

theorem reachOk_t2 : ReachableOk t2 :=
  ⟨1, 1, Relation.ReflTransGen.head stepOk_t0_t1
    (Relation.ReflTransGen.head stepOk_t1_t2 Relation.ReflTransGen.refl)⟩

theorem reachOk_t3 : ReachableOk t3 :=
  ⟨1, 1, Relation.ReflTransGen.head stepOk_t0_t1
    (Relation.ReflTransGen.head stepOk_t1_t2
      (Relation.ReflTransGen.head stepOk_t2_t3 Relation.ReflTransGen.refl))⟩

theorem reach_t3 : Reachable t3 := reachableOk_reachable reachOk_t3

theorem stepOk_u0_u1 : StepOk u0 u1 := ⟨evAcceptOk 0, by decide, by decide⟩

theorem reach_u1 : Reachable u1 :=
  reachableOk_reachable
    ⟨1, 0, Relation.ReflTransGen.head stepOk_u0_u1 Relation.ReflTransGen.refl⟩

/- The claims. -/

/-- Claim C1: the claimed invariant (a listener has an armed accept iff
n_active < max_active and the failed flag is unset, in every reachable
quiescent state, in particular after entry into failed-drain state) is
violated by the code: in the reachable quiescent state s4 the dispatcher
has entered failed-drain state, n_active < max_active holds with failed set
(so the right side of the iff is false), yet the listener has an armed
accept, because dropconn re-arms accepts without checking the failed
flag. -/
theorem c1_accept_armed_while_failed :
    Reachable s4 ∧ s4.failed = true ∧ s4.listen = [true] ∧
      ¬(s4.nActive < s4.maxActive ∧ s4.failed = false) :=
  ⟨reach_s4, rfl, rfl, by decide⟩

/-- Claim C2: the claim (after failed is set no further accept completes, no
forwardee is created, no read is re-armed, no accept is re-armed) is
violated by the code: in the reachable quiescent state s4 the failed flag is
set, yet a further accept completes successfully (growing n_active), and a
further read completion creates a new forwardee and re-arms the read,
because dropconn re-armed the accepts during the drain sweep and the sweep
missed the reads of connections ahead of the failing one in the list. -/
theorem c2_activity_after_failed :
    Reachable s4 ∧ s4.failed = true ∧
      StepOk s4 s5 ∧ s5.nActive = s4.nActive + 1 ∧
      StepOk s5 s6 ∧ s6.fwds.length = s5.fwds.length + 1 ∧
      connReadArmed s6 1 = true :=
  ⟨reach_s4, rfl, stepOk_s4_s5, by decide, stepOk_s5_s6, by decide, by decide⟩

/-- Claim C3: the claim (a failure response cancels the armed read of every
connection still in the collection, regardless of its position relative to
the failing connection) is violated by the code: in the reachable state s3
connection cid 1 is in the list with an armed read, the response callback
for forwardee 0 of the older connection cid 0 delivers buf == NULL and
returns success, but the read of connection cid 1 is still armed afterwards:
the cancel sweep starts at the failing connection (F->conn) instead of at
the head of the list. -/
theorem c3_read_not_cancelled :
    Reachable s3 ∧ fires s3 (Event.gotresponseFail 0 true true) = true ∧
      exec s3 (Event.gotresponseFail 0 true true) = (s4, 0) ∧
      s4.failed = true ∧ connReadArmed s3 1 = true ∧
      connReadArmed s4 1 = true :=
  ⟨reach_s3, by decide, by decide, rfl, by decide, by decide⟩

/-- Claim C4: dispatch_alive returns true iff the failed flag is unset or
nsock_active is positive; equivalently it returns false exactly when failed
is set and nsock_active is zero. -/
theorem c4_alive_iff (d : DState) :
    dispatch_alive d = true ↔ (d.failed = false ∨ 0 < d.nActive) := by
  unfold dispatch_alive
  cases hb : d.failed <;> simp

/-- Claim C5: in every reachable state, if dispatch_alive returns false then
the connection list is empty, nsock_active is zero, and the failed flag is
set. -/
theorem c5_dead_implies_drained (d : DState) (h : Reachable d)
    (ha : dispatch_alive d = false) :
    d.conns = [] ∧ d.nActive = 0 ∧ d.failed = true := by
  have hcount := reachable_count h
  unfold dispatch_alive at ha
  have hf : d.failed = true := by
    cases hb : d.failed
    · rw [hb] at ha; simp at ha
    · rfl
  have hn : d.nActive = 0 := by
    rw [hf] at ha
    simp at ha
    omega
  have hc : d.conns = [] := by
    rw [hn] at hcount
    exact List.length_eq_zero.mp hcount.symm
  exact ⟨hc, hn, hf⟩

/-- Witness for C5: the concrete reachable state t3 is not alive, and it is
drained. -/
theorem c5_dead_implies_drained_witness :
    t3.conns = [] ∧ t3.nActive = 0 ∧ t3.failed = true :=
  c5_dead_implies_drained t3 reach_t3 (by decide)

/-- Claim C6: the claim (0 ≤ n_active ≤ max_active for every dispatcher,
including one constructed with max_active = 0) is violated by the code for
max_active = 0: dispatch_init arms accepts unconditionally, so with
maxconn = 0 a connection is still admitted, and in the reachable quiescent
state u1 n_active = 1 exceeds max_active = 0, contradicting the init
documentation (no more than maxconn connections at once). -/
theorem c6_maxconn_zero_violated :
    Reachable u1 ∧ u1.maxActive = 0 ∧ u1.nActive = 1 :=
  ⟨reach_u1, rfl, rfl⟩

/-- Counterexample to claim C7 as stated: the claim includes the
enqueue-failure branch, but starting from the reachable state t1, a read
completion with a packet whose upstream enqueue fails
(wire_requestqueue_add returns failure) leaves nrequests = 1 on connection
cid 0 while zero live forwardees reference it: the source increments
nrequests before the enqueue and does not undo it on the failure branch,
although it frees the forwardee. -/
theorem c7_enqueue_failure_cex :
    ReachableOk t1 ∧
      fires t1 (Event.gotrequestPkt 0 true false true) = true ∧
      findConn (exec t1 (Event.gotrequestPkt 0 true false true)).1.conns 0 =
        some { cid := 0, readArmed := false, nreq := 1 } ∧
      countFwd (exec t1 (Event.gotrequestPkt 0 true false true)).1.fwds 0 = 0 :=
  ⟨reachOk_t1, by decide, by decide, by decide⟩

/-- Claim C7 (amended): in every state reachable through callbacks that
return success (on a failing callback the reactor terminates the process),
the nrequests counter of every connection in the list equals the number of
live forwardees referencing that connection; on the enqueue-failure branch
the callback returns failure and the forwardee is freed while nrequests
stays incremented. -/
theorem c7_nreq_counts_forwardees (d : DState) (h : ReachableOk d) :
    ∀ c ∈ d.conns, c.nreq = countFwd d.fwds c.cid :=
  (reachableOk_inv h).acct

/-- Witness for C7 at the concrete state t2: its one connection has one
in-flight request and one live forwardee references it. -/
theorem c7_nreq_counts_forwardees_witness :
    ({ cid := 0, readArmed := true, nreq := 1 } : Conn) ∈ t2.conns ∧
      ({ cid := 0, readArmed := true, nreq := 1 } : Conn).nreq =
        countFwd t2.fwds ({ cid := 0, readArmed := true, nreq := 1 } : Conn).cid :=
  ⟨by decide, c7_nreq_counts_forwardees t2 reachOk_t2 _ (by decide)⟩

/-- Claim C8: a connection is destroyed only when its read handle is clear
and its request count is zero: every call site of dropconn (read completion
with EOF, read cancel, and reqdone) establishes the asserted conditions, so
the asserts in dropconn never fire along any reachable execution; and a
connection is destroyed whenever that conjunction holds: at every quiescent
state reached through successful callbacks no connection remains in the
list with a clear read handle and zero requests. -/
theorem c8_dropconn_safety (d : DState) :
    (Reachable d → d.assertFail = false) ∧
      (ReachableOk d → ∀ c ∈ d.conns, c.readArmed = true ∨ c.nreq ≠ 0) :=
  ⟨fun h => reachable_assert h, fun h => (reachableOk_inv h).live⟩

/-- Witness for C8 at the concrete states t3 (no assert fired along the
drain trace) and t2 (its one connection is not undead). -/
theorem c8_dropconn_safety_witness :
    t3.assertFail = false ∧
      (({ cid := 0, readArmed := true, nreq := 1 } : Conn).readArmed = true ∨
        ({ cid := 0, readArmed := true, nreq := 1 } : Conn).nreq ≠ 0) :=
  ⟨(c8_dropconn_safety t3).1 reach_t3,
    (c8_dropconn_safety t2).2 reachOk_t2 _ (by decide)⟩

/-- Claim C9: the write completion callback ignores its write_failed
argument ((void)failed in the source): for every dispatcher state,
forwardee and environment, running it with write_failed = true and with
write_failed = false yields the same resulting state and return value; in
particular a failed write never sets the failed flag or triggers drain. -/
theorem c9_writresponse_ignores_failed (d : DState) (fid : Nat)
    (aok dok : Bool) :
    callback_writresponse d fid true aok dok =
      callback_writresponse d fid false aok dok := rfl

/-- Claim C10: in every reachable state nsock_active equals the number of
connection records in the list: linking and unlinking are paired with the
increment and decrement on every path. -/
theorem c10_nactive_eq_conns (d : DState) (h : Reachable d) :
    d.nActive = d.conns.length :=
  reachable_count h

/-- Witness for C10 at the concrete state s3, which has two live
connections. -/
theorem c10_nactive_eq_conns_witness : s3.nActive = s3.conns.length :=
  c10_nactive_eq_conns s3 reach_s3

end Mux
